import Mathlib

/-!
Verification of the defiads set-reconciliation / text-encoding specification
against the repository sources.

The `Text` component (`src/text.rs`) is embedded directly from the Rust
source: a Rust string is modelled as a list of Unicode scalar values
(`List Nat` whose members satisfy `ValidScalar`), and the standard-library
encoding primitives that `text.rs` calls (`str::as_bytes`, the UTF-8
encoder; `str::encode_utf16`; `String::from_utf8`; `String::from_utf16`;
little-endian `u16` reading and writing from the `byteorder` crate) are
implemented here as executable functions.  The external `snap` (snappy)
compressor is not part of this repository; it is treated as a pair of
function parameters `compress`/`decompress`, with its round-trip contract
taken as a hypothesis where a theorem needs it.

The Iblt, AdRegistry and SyncSession components are declared in
`src/lib.rs` (`mod iblt;`, `mod ad;`, `mod p2p_defiads;`) but their source
files are not present in the repository snapshot; those components are
modelled from the specification text, and each such definition carries a
doc comment starting with `Modelled from the spec:`.
-/

namespace Defiads

/-- A Unicode scalar value, exactly the values a Rust `char` may hold:
below `0x110000` and outside the surrogate range `0xD800..=0xDFFF`. -/
def ValidScalar (v : Nat) : Prop := v < 0x110000 ∧ (v < 0xD800 ∨ 0xDFFF < v)

instance (v : Nat) : Decidable (ValidScalar v) := by
  unfold ValidScalar; infer_instance

/-- UTF-8 encoding of one Unicode scalar value (the per-character step of
Rust's `str::as_bytes` view of a string). -/
def utf8EncodeChar (v : Nat) : List Nat :=
  if v < 0x80 then [v]
  else if v < 0x800 then [0xC0 + v / 64, 0x80 + v % 64]
  else if v < 0x10000 then [0xE0 + v / 4096, 0x80 + v / 64 % 64, 0x80 + v % 64]
  else [0xF0 + v / 262144, 0x80 + v / 4096 % 64, 0x80 + v / 64 % 64, 0x80 + v % 64]

/-- UTF-8 encoding of a string (Rust `str::as_bytes`); `s.len()` in the
Rust source is the length of this list. -/
def utf8Encode : List Nat → List Nat
  | [] => []
  | c :: r => utf8EncodeChar c ++ utf8Encode r

/-- UTF-8 decoding automaton step (used to embed Rust `String::from_utf8`).
The state `none` expects a lead byte; `some (need, acc, mn)` expects `need`
more continuation bytes for the partial scalar `acc`, with `mn` the least
scalar representable at this width (the overlong check).  Rejects stray or
missing continuation bytes, overlong forms, surrogates and out-of-range
scalars. -/
def utf8Run : Option (Nat × Nat × Nat) → List Nat → Option (List Nat)
  | none, [] => some []
  | some _, [] => none
  | none, b :: r =>
    if b < 0x80 then (utf8Run none r).map fun l => b :: l
    else if b < 0xC0 then none
    else if b < 0xE0 then utf8Run (some (1, b - 0xC0, 0x80)) r
    else if b < 0xF0 then utf8Run (some (2, b - 0xE0, 0x800)) r
    else if b < 0xF8 then utf8Run (some (3, b - 0xF0, 0x10000)) r
    else none
  | some (need, acc, mn), b :: r =>
    if 0x80 ≤ b ∧ b < 0xC0 then
      if need ≤ 1 then
        if mn ≤ acc * 64 + (b - 0x80) ∧
            (acc * 64 + (b - 0x80) < 0xD800 ∨ 0xDFFF < acc * 64 + (b - 0x80)) ∧
            acc * 64 + (b - 0x80) < 0x110000 then
          (utf8Run none r).map fun l => (acc * 64 + (b - 0x80)) :: l
        else none
      else utf8Run (some (need - 1, acc * 64 + (b - 0x80), mn)) r
    else none

/-- UTF-8 decoding (Rust `String::from_utf8`); `none` is the `Err` case. -/
def utf8Decode (l : List Nat) : Option (List Nat) := utf8Run none l

/-- UTF-16 encoding of one Unicode scalar value into 16-bit code units
(the per-character step of Rust's `str::encode_utf16`). -/
def utf16EncodeChar (v : Nat) : List Nat :=
  if v < 0x10000 then [v]
  else [0xD800 + (v - 0x10000) / 1024, 0xDC00 + (v - 0x10000) % 1024]

/-- UTF-16 encoding of a string into 16-bit code units
(Rust `str::encode_utf16`). -/
def utf16Encode : List Nat → List Nat
  | [] => []
  | c :: r => utf16EncodeChar c ++ utf16Encode r

/-- UTF-16 decoding from 16-bit code units (Rust `String::from_utf16`):
rejects unpaired surrogates; `none` is the `Err` case. -/
def utf16Decode : List Nat → Option (List Nat)
  | [] => some []
  | u0 :: rest =>
    if u0 < 0xD800 ∨ 0xDFFF < u0 then (utf16Decode rest).map fun l => u0 :: l
    else if u0 < 0xDC00 then
      match rest with
      | u1 :: rest1 =>
        if 0xDC00 ≤ u1 ∧ u1 < 0xE000 then
          (utf16Decode rest1).map fun l =>
            (0x10000 + (u0 - 0xD800) * 1024 + (u1 - 0xDC00)) :: l
        else none
      | [] => none
    else none

/-- Little-endian serialization of 16-bit units into bytes
(`WriteBytesExt::write_u16::<LittleEndian>` applied to each unit). -/
def u16sToBytes : List Nat → List Nat
  | [] => []
  | u :: r => u % 256 :: u / 256 :: u16sToBytes r

/-- Little-endian deserialization of bytes into 16-bit units, mirroring the
`while let Ok(utf16) = cursor.read_u16::<LittleEndian>()` loop of
`Text::as_string`: a trailing odd byte is silently dropped. -/
def bytesToU16s : List Nat → List Nat
  | b0 :: b1 :: r => (b0 + 256 * b1) :: bytesToU16s r
  | _ => []

theorem utf8Run_encodeChar (v : Nat) (hv : ValidScalar v) (rest : List Nat) :
    utf8Run none (utf8EncodeChar v ++ rest) = (utf8Run none rest).map fun l => v :: l := by
  obtain ⟨hmax, hsur⟩ := hv
  by_cases h1 : v < 0x80
  · rw [utf8EncodeChar, if_pos h1]
    simp only [List.cons_append, List.nil_append, utf8Run]
    rw [if_pos h1]
    rfl
  · by_cases h2 : v < 0x800
    · rw [utf8EncodeChar, if_neg h1, if_pos h2]
      simp only [List.cons_append, List.nil_append, utf8Run]
      rw [if_neg (by omega), if_neg (by omega), if_pos (by omega), if_pos (by omega),
        if_pos (by omega), if_pos (by omega)]
      have hval : (0xC0 + v / 64 - 0xC0) * 64 + (0x80 + v % 64 - 0x80) = v := by omega
      rw [hval]
      rfl
    · by_cases h3 : v < 0x10000
      · rw [utf8EncodeChar, if_neg h1, if_neg h2, if_pos h3]
        simp only [List.cons_append, List.nil_append, utf8Run]
        rw [if_neg (by omega), if_neg (by omega), if_neg (by omega), if_pos (by omega),
          if_pos (by omega), if_neg (by omega), if_pos (by omega), if_pos (by omega),
          if_pos (by omega)]
        have hval : ((0xE0 + v / 4096 - 0xE0) * 64 + (0x80 + v / 64 % 64 - 0x80)) * 64 +
            (0x80 + v % 64 - 0x80) = v := by omega
        rw [hval]
        rfl
      · rw [utf8EncodeChar, if_neg h1, if_neg h2, if_neg h3]
        simp only [List.cons_append, List.nil_append, utf8Run]
        rw [if_neg (by omega), if_neg (by omega), if_neg (by omega), if_neg (by omega),
          if_pos (by omega), if_pos (by omega), if_neg (by omega), if_pos (by omega),
          if_neg (by omega), if_pos (by omega), if_pos (by omega), if_pos (by omega)]
        have hval : (((0xF0 + v / 262144 - 0xF0) * 64 + (0x80 + v / 4096 % 64 - 0x80)) * 64 +
            (0x80 + v / 64 % 64 - 0x80)) * 64 + (0x80 + v % 64 - 0x80) = v := by omega
        rw [hval]
        rfl

theorem utf8Decode_encode (s : List Nat) (hs : ∀ v ∈ s, ValidScalar v) :
    utf8Decode (utf8Encode s) = some s := by
  unfold utf8Decode
  induction s with
  | nil => rfl
  | cons c r ih =>
    rw [utf8Encode, utf8Run_encodeChar c (hs c (by simp)) (utf8Encode r),
      ih (fun v hv => hs v (by simp [hv]))]
    rfl

theorem utf16Decode_encodeChar (v : Nat) (hv : ValidScalar v) (rest : List Nat) :
    utf16Decode (utf16EncodeChar v ++ rest) = (utf16Decode rest).map fun l => v :: l := by
  obtain ⟨hmax, hsur⟩ := hv
  by_cases h1 : v < 0x10000
  · rw [utf16EncodeChar, if_pos h1]
    simp only [List.cons_append, List.nil_append]
    rw [utf16Decode.eq_def]
    simp only
    rw [if_pos (by omega)]
  · rw [utf16EncodeChar, if_neg h1]
    simp only [List.cons_append, List.nil_append]
    rw [utf16Decode.eq_def]
    simp only
    have hd : (v - 0x10000) / 1024 < 1024 := by omega
    rw [if_neg (by omega), if_pos (by omega), if_pos (by omega)]
    have hval : 0x10000 + (0xD800 + (v - 0x10000) / 1024 - 0xD800) * 1024 +
        (0xDC00 + (v - 0x10000) % 1024 - 0xDC00) = v := by omega
    rw [hval]

theorem utf16Decode_encode (s : List Nat) (hs : ∀ v ∈ s, ValidScalar v) :
    utf16Decode (utf16Encode s) = some s := by
  induction s with
  | nil => rfl
  | cons c r ih =>
    rw [utf16Encode, utf16Decode_encodeChar c (hs c (by simp)) (utf16Encode r),
      ih (fun v hv => hs v (by simp [hv]))]
    rfl

theorem utf16Encode_lt (s : List Nat) (hs : ∀ v ∈ s, ValidScalar v) :
    ∀ u ∈ utf16Encode s, u < 65536 := by
  induction s with
  | nil => intro u hu; simp [utf16Encode] at hu
  | cons c r ih =>
    intro u hu
    rw [utf16Encode, List.mem_append] at hu
    rcases hu with hu | hu
    · obtain ⟨hmax, _⟩ := hs c (by simp)
      rw [utf16EncodeChar] at hu
      by_cases h1 : c < 0x10000
      · rw [if_pos h1] at hu
        simp only [List.mem_singleton] at hu
        omega
      · rw [if_neg h1] at hu
        have hd : (c - 0x10000) / 1024 < 1024 := by omega
        have hm : (c - 0x10000) % 1024 < 1024 := by omega
        simp only [List.mem_cons, List.not_mem_nil, or_false] at hu
        rcases hu with hu | hu <;> omega
    · exact ih (fun v hv => hs v (by simp [hv])) u hu

theorem bytesToU16s_u16sToBytes (l : List Nat) (hl : ∀ u ∈ l, u < 65536) :
    bytesToU16s (u16sToBytes l) = l := by
  induction l with
  | nil => rfl
  | cons u r ih =>
    have hu : u < 65536 := hl u (by simp)
    rw [u16sToBytes, bytesToU16s, ih (fun x hx => hl x (by simp [hx]))]
    congr 1
    omega

/-- Embedding of `struct Text` from `src/text.rs`: the stored
space-saving encoding of a string, one flag byte followed by the payload. -/
structure Text where
  encoded : List Nat
deriving DecidableEq

/-- The `UTF_16` flag bit (bit 0) of the encoding byte, from `src/text.rs`. -/
def UTF_16 : Nat := 1

/-- The `COMPRESSED` flag bit (bit 1) of the encoding byte, from
`src/text.rs`. -/
def COMPRESSED : Nat := 2

/-- Embedding of `Text::new` from `src/text.rs`.  The external snappy
compressor (`snap::Writer`) is passed in as the function `compress`.
`utf8Encode s` is `s.as_bytes()` (so its length is `s.len()`), and
`u16sToBytes (utf16Encode s)` is the `utf16encoded` buffer written by
`write_u16::<LittleEndian>` over `s.encode_utf16()`. -/
def Text.new (compress : List Nat → List Nat) (s : List Nat) : Text :=
  let utf16encoded := u16sToBytes (utf16Encode s)
  let utf8encoded := utf8Encode s
  let flag1 := if utf8encoded.length < utf16encoded.length then 0 else UTF_16
  let data1 := if utf8encoded.length < utf16encoded.length then utf8encoded else utf16encoded
  let compressed := compress data1
  let flag := if compressed.length < data1.length then flag1 ||| COMPRESSED else flag1
  let data := if compressed.length < data1.length then compressed else data1
  ⟨flag :: data⟩

/-- Embedding of `Text::from_encoded` from `src/text.rs`: stores the given
bytes with no validation whatsoever. -/
def Text.from_encoded (encoded : List Nat) : Text := ⟨encoded⟩

/-- Embedding of `Text::as_bytes` from `src/text.rs`. -/
def Text.as_bytes (t : Text) : List Nat := t.encoded

/-- Propagation of the Rust `?` operator on a `Result` value, as used by
`Text::as_string` after the snappy `read_to_end` call. -/
def exBind (x : Except Unit (List Nat)) (f : List Nat → Except Unit (List Nat)) :
    Except Unit (List Nat) :=
  match x with
  | Except.error e => Except.error e
  | Except.ok a => f a

/-- Lift of a `String::from_utf8` / `String::from_utf16` result into the
boxed-error return of `Text::as_string` (its trailing `?`). -/
def liftDecode (x : Option (List Nat)) : Except Unit (List Nat) :=
  match x with
  | some cs => Except.ok cs
  | none => Except.error ()

theorem exBind_ok (a : List Nat) (f : List Nat → Except Unit (List Nat)) :
    exBind (Except.ok a) f = f a := rfl

theorem liftDecode_some (cs : List Nat) : liftDecode (some cs) = Except.ok cs := rfl

/-- Embedding of `Text::as_string` from `src/text.rs`.  The external snappy
decompressor (`snap::Reader`) is passed in as `decompress`; `Except.error`
collapses the boxed error cases (decompression failure, `from_utf8` /
`from_utf16` failure).  The outer `Option` models the unguarded index
`self.encoded[0]`: `none` is the panic on an empty encoding, which the Rust
code does not guard against. -/
def Text.as_string (decompress : List Nat → Except Unit (List Nat)) (t : Text) :
    Option (Except Unit (List Nat)) :=
  match t.encoded with
  | [] => none
  | flag :: rest =>
    some (exBind (if flag &&& COMPRESSED ≠ 0 then decompress rest else Except.ok rest)
      fun data =>
        if flag &&& UTF_16 ≠ 0 then liftDecode (utf16Decode (bytesToU16s data))
        else liftDecode (utf8Decode data))

/-- Embedding of `Text::encoding` from `src/text.rs`: returns
`self.encoded[0]`; `none` models the panic on an empty encoding. -/
def Text.encoding (t : Text) : Option Nat := t.encoded.head?

/-- C1: for every Rust string `s` (a list of Unicode scalar values) and
every compressor/decompressor pair satisfying the snappy round-trip
contract, `Text::as_string` applied to `Text::new s` returns `Ok` with a
string equal to `s`: whichever of the four encodings `new` selects,
`as_string` exactly inverts it. -/
theorem claim_C1_text_roundtrip (s : List Nat) (hs : ∀ v ∈ s, ValidScalar v)
    (compress : List Nat → List Nat) (decompress : List Nat → Except Unit (List Nat))
    (hsnap : ∀ b, decompress (compress b) = Except.ok b) :
    Text.as_string decompress (Text.new compress s) = some (Except.ok s) := by
  by_cases h16 : (utf8Encode s).length < (u16sToBytes (utf16Encode s)).length
  · by_cases hcz : (compress (utf8Encode s)).length < (utf8Encode s).length
    · simp only [Text.new, if_pos h16, if_pos hcz, Text.as_string]
      rw [if_pos (by decide), hsnap, exBind_ok, if_neg (by decide),
        utf8Decode_encode s hs, liftDecode_some]
    · simp only [Text.new, if_pos h16, if_neg hcz, Text.as_string]
      rw [if_neg (by decide), exBind_ok, if_neg (by decide),
        utf8Decode_encode s hs, liftDecode_some]
  · by_cases hcz : (compress (u16sToBytes (utf16Encode s))).length <
        (u16sToBytes (utf16Encode s)).length
    · simp only [Text.new, if_neg h16, if_pos hcz, Text.as_string]
      rw [if_pos (by decide), hsnap, exBind_ok, if_pos (by decide),
        bytesToU16s_u16sToBytes _ (utf16Encode_lt s hs),
        utf16Decode_encode s hs, liftDecode_some]
    · simp only [Text.new, if_neg h16, if_neg hcz, Text.as_string]
      rw [if_neg (by decide), exBind_ok, if_pos (by decide),
        bytesToU16s_u16sToBytes _ (utf16Encode_lt s hs),
        utf16Decode_encode s hs, liftDecode_some]

/-- C1 witness: concrete instantiation at the string "hi" with the identity
compressor, which satisfies the snappy round-trip contract. -/
theorem claim_C1_text_roundtrip_witness :
    Text.as_string Except.ok (Text.new (fun b => b) [104, 105]) =
      some (Except.ok [104, 105]) :=
  claim_C1_text_roundtrip [104, 105] (by decide) (fun b => b) Except.ok (fun _ => rfl)

/-- C9: every `Text` produced by `Text::new` has an encoded buffer of
length at least 1 whose first byte only uses the `UTF_16` (bit 0) and
`COMPRESSED` (bit 1) bits (it is below 4), so `as_string` and `encoding`
never hit the unguarded index `self.encoded[0]`; but `Text::from_encoded`
performs no validation, and on the empty slice both `as_string` and
`encoding` reach the out-of-bounds index and panic (modelled as `none`). -/
theorem claim_C9_flag_byte_and_panic :
    (∀ (compress : List Nat → List Nat) (s : List Nat)
        (decompress : List Nat → Except Unit (List Nat)),
      1 ≤ (Text.new compress s).encoded.length ∧
      (Text.new compress s).encoded.head?.getD 0 < 4 ∧
      (Text.as_string decompress (Text.new compress s)).isSome = true ∧
      (Text.encoding (Text.new compress s)).isSome = true) ∧
    (∀ decompress, Text.as_string decompress (Text.from_encoded []) = none) ∧
    Text.encoding (Text.from_encoded []) = none := by
  refine ⟨fun compress s decompress => ⟨?_, ?_, rfl, rfl⟩, fun _ => rfl, rfl⟩
  · simp [Text.new]
  · simp only [Text.new, List.head?_cons, Option.getD_some]
    split <;> split <;> decide

/-- C10: `Text::new` sets the `UTF_16` flag iff the UTF-8 byte length of
`s` is not strictly smaller than its little-endian UTF-16 byte length, and
sets the `COMPRESSED` flag iff the compression of the chosen encoding is
strictly shorter than it; the stored payload after the flag byte is never
longer than the minimum of the two encoded lengths. -/
theorem claim_C10_flag_selection (compress : List Nat → List Nat) (s : List Nat) :
    ((Text.new compress s).encoded.head?.getD 0 &&& UTF_16 ≠ 0 ↔
      ¬ (utf8Encode s).length < (u16sToBytes (utf16Encode s)).length) ∧
    ((Text.new compress s).encoded.head?.getD 0 &&& COMPRESSED ≠ 0 ↔
      (compress (if (utf8Encode s).length < (u16sToBytes (utf16Encode s)).length
          then utf8Encode s else u16sToBytes (utf16Encode s))).length <
        (if (utf8Encode s).length < (u16sToBytes (utf16Encode s)).length
          then utf8Encode s else u16sToBytes (utf16Encode s)).length) ∧
    (Text.new compress s).encoded.tail.length ≤
      min (utf8Encode s).length (u16sToBytes (utf16Encode s)).length := by
  by_cases h16 : (utf8Encode s).length < (u16sToBytes (utf16Encode s)).length
  · by_cases hcz : (compress (utf8Encode s)).length < (utf8Encode s).length
    · simp only [Text.new, if_pos h16, if_pos hcz, List.head?_cons, Option.getD_some,
        List.tail_cons]
      refine ⟨iff_of_false (by decide) (not_not_intro h16),
        iff_of_true (by decide) hcz, ?_⟩
      have hmin := Nat.min_eq_left (Nat.le_of_lt h16)
      omega
    · simp only [Text.new, if_pos h16, if_neg hcz, List.head?_cons, Option.getD_some,
        List.tail_cons]
      refine ⟨iff_of_false (by decide) (not_not_intro h16),
        iff_of_false (by decide) hcz, ?_⟩
      have hmin := Nat.min_eq_left (Nat.le_of_lt h16)
      omega
  · by_cases hcz : (compress (u16sToBytes (utf16Encode s))).length <
        (u16sToBytes (utf16Encode s)).length
    · simp only [Text.new, if_neg h16, if_pos hcz, List.head?_cons, Option.getD_some,
        List.tail_cons]
      refine ⟨iff_of_true (by decide) h16,
        iff_of_true (by decide) hcz, ?_⟩
      have hmin := Nat.min_eq_right (Nat.le_of_not_lt h16)
      omega
    · simp only [Text.new, if_neg h16, if_neg hcz, List.head?_cons, Option.getD_some,
        List.tail_cons]
      refine ⟨iff_of_true (by decide) h16,
        iff_of_false (by decide) hcz, ?_⟩
      have hmin := Nat.min_eq_right (Nat.le_of_not_lt h16)
      omega

/-- Modelled from the spec: `IbltBucket` — count, keysum (xor-accumulator of
digests), valuesum (xor-accumulator of per-item checksums) and hashcheck
(checksum of the accumulated key); `src/iblt.rs` is declared in
`src/lib.rs` but missing from the repository snapshot. -/
structure Bucket where
  count : Int
  keysum : Nat
  valuesum : Nat
  hashcheck : Nat
deriving DecidableEq

/-- Modelled from the spec: Iblt parameters — bucket count M, hash-function
count K and a shared seed, plus the key and value checksum functions, which
the spec leaves abstract ("a checksum of value", "checksum of the
accumulated key") and which are therefore parameters of the model. -/
structure IbltParams where
  M : Nat
  K : Nat
  seed : Nat
  keyHash : Nat → Nat
  valHash : Nat → Nat

/-- Modelled from the spec: the K bucket-index derivation functions,
realised as one keyed affine hash with K distinct domain-separation tags
(design note 9: "one keyed hash with K distinct domain-separation tags"). -/
def bucketIdx (p : IbltParams) (d k : Nat) : Nat :=
  (d * (p.seed + 2 * k + 1) + k) % p.M

/-- Modelled from the spec: an Iblt is an ordered sequence of M buckets
(the index functions and seed are carried separately as `IbltParams`,
agreed by protocol constant). -/
structure Iblt where
  buckets : List Bucket
deriving DecidableEq

def Bucket.zero : Bucket := ⟨0, 0, 0, 0⟩

/-- Modelled from the spec: a fresh all-zero Iblt of M buckets. -/
def Iblt.init (p : IbltParams) : Iblt := ⟨List.replicate p.M Bucket.zero⟩

/-- Modelled from the spec: the single-bucket update shared by insert
(`sgn = +1`) and erase (`sgn = -1`): add `sgn` to count, xor the digest
into keysum, xor the value checksum into valuesum, xor the key checksum
into hashcheck. -/
def bumpBucket (p : IbltParams) (sgn : Int) (d v : Nat) (b : Bucket) : Bucket :=
  ⟨b.count + sgn, b.keysum ^^^ d, b.valuesum ^^^ p.valHash v, b.hashcheck ^^^ p.keyHash d⟩

/-- Pointwise update of the bucket at one index (out-of-range indices leave
the sequence unchanged). -/
def modifyIdx (f : Bucket → Bucket) : Nat → List Bucket → List Bucket
  | _, [] => []
  | 0, b :: r => f b :: r
  | i+1, b :: r => b :: modifyIdx f i r

/-- Modelled from the spec: apply the signed bucket update at each of the K
derived bucket indices. -/
def Iblt.op (p : IbltParams) (sgn : Int) (t : Iblt) (d v : Nat) : Iblt :=
  ⟨(List.range p.K).foldl
    (fun bs k => modifyIdx (bumpBucket p sgn d v) (bucketIdx p d k) bs) t.buckets⟩

/-- Modelled from the spec: `insert(digest, value)` — for each of K derived
bucket indices, increment count, xor digest into keysum, xor a checksum of
value into valuesum (and the key checksum into hashcheck). -/
def Iblt.insert (p : IbltParams) (t : Iblt) (d v : Nat) : Iblt := Iblt.op p 1 t d v

/-- Modelled from the spec: `erase(digest, value)` — identical index
derivation, decrement count and xor the same values. -/
def Iblt.erase (p : IbltParams) (t : Iblt) (d v : Nat) : Iblt := Iblt.op p (-1) t d v

/-- Modelled from the spec: bucket-wise subtraction
`(count_a - count_b, keysum_a xor keysum_b, valuesum_a xor valuesum_b)`. -/
def Bucket.sub (a b : Bucket) : Bucket :=
  ⟨a.count - b.count, a.keysum ^^^ b.keysum, a.valuesum ^^^ b.valuesum,
    a.hashcheck ^^^ b.hashcheck⟩

/-- Modelled from the spec: `subtract(other)` is bucket-wise subtraction;
valid only when both operands were built with identical M, K and seed
(here: with the same `IbltParams`). -/
def Iblt.subtract (a b : Iblt) : Iblt := ⟨List.zipWith Bucket.sub a.buckets b.buckets⟩

/-- Modelled from the spec: `buildIblt(inventory, params)` — deterministic
fold inserting every digest of the inventory snapshot (the digest standing
in as its own value) into a fresh Iblt. -/
def buildIblt (p : IbltParams) (inv : List Nat) : Iblt :=
  inv.foldl (fun t d => Iblt.insert p t d d) (Iblt.init p)

/-- Modelled from the spec: a bucket is pure when count ∈ {+1, -1} and
hashcheck matches the checksum of keysum. -/
def Bucket.isPure (p : IbltParams) (b : Bucket) : Bool :=
  (b.count == 1 || b.count == -1) && (p.keyHash b.keysum == b.hashcheck)

/-- Modelled from the spec: peeling one decoded item — recover the digest
from keysum and erase it from all K of its buckets (erase for count +1,
re-insert for count -1). -/
def Iblt.peel (p : IbltParams) (t : Iblt) (b : Bucket) : Iblt :=
  Iblt.op p (-b.count) t b.keysum b.keysum

inductive IbltError
  | Undecodable
deriving DecidableEq

/-- Sum of the absolute bucket counts; a successful decode peels one item
per step and each honest item holds at least one unit of count, so this
bounds the number of peels of any successful decode. -/
def Iblt.totalAbs (t : Iblt) : Nat := (t.buckets.map fun b => b.count.natAbs).sum

/-- The fixed-point / success condition of decode: no bucket has a nonzero
count left. -/
def Iblt.allZeroCount (t : Iblt) : Bool := t.buckets.all fun b => b.count == 0

/-- Modelled from the spec: `decode()` repeatedly scans for a pure bucket,
records the recovered digest with its sign, erases it from its K buckets,
and repeats to a fixed point; it fails with `Undecodable` when no pure
bucket remains while some bucket still has nonzero count. -/
def Iblt.decodeAux (p : IbltParams) :
    Nat → Iblt → List (Nat × Int) → Except IbltError (List (Nat × Int))
  | 0, t, acc =>
    if t.allZeroCount then Except.ok acc else Except.error IbltError.Undecodable
  | fuel+1, t, acc =>
    if t.allZeroCount then Except.ok acc
    else
      match t.buckets.find? (fun b => Bucket.isPure p b) with
      | none => Except.error IbltError.Undecodable
      | some b => Iblt.decodeAux p fuel (Iblt.peel p t b) ((b.keysum, b.count) :: acc)

/-- Modelled from the spec: `decode()` run to its fixed point. -/
def Iblt.decode (p : IbltParams) (t : Iblt) : Except IbltError (List (Nat × Int)) :=
  Iblt.decodeAux p t.totalAbs t []

/-- Ascending insertion sort, used by `diff` for deterministic output. -/
def sortAsc (l : List Nat) : List Nat := List.insertionSort (· ≤ ·) l

/-- Modelled from the spec: `diff(localIblt, remoteIblt)` subtracts and
decodes; emits two digest lists (sign +1: present only locally; sign -1:
present only remotely), each sorted ascending for determinism. -/
def diff (p : IbltParams) (localIblt remoteIblt : Iblt) :
    Except IbltError (List Nat × List Nat) :=
  match Iblt.decode p (Iblt.subtract localIblt remoteIblt) with
  | Except.error e => Except.error e
  | Except.ok items =>
    Except.ok (sortAsc ((items.filter fun x => decide (0 < x.2)).map fun x => x.1),
      sortAsc ((items.filter fun x => decide (x.2 < 0)).map fun x => x.1))

/-- Modelled from the spec: M is sized to about 1.5 times the expected
maximum symmetric-difference size, so a difference is below the sizing
threshold when it is smaller than two thirds of M. -/
def sizingThreshold (p : IbltParams) : Nat := 2 * p.M / 3

theorem xor_right_comm (x a b : Nat) : x ^^^ a ^^^ b = x ^^^ b ^^^ a := by
  rw [Nat.xor_assoc, Nat.xor_comm a b, Nat.xor_assoc]

theorem xor_cancel_right (x a : Nat) : x ^^^ a ^^^ a = x := by
  rw [Nat.xor_assoc, Nat.xor_self, Nat.xor_zero]

theorem bumpBucket_comm (p : IbltParams) (s1 s2 : Int) (d1 v1 d2 v2 : Nat) (b : Bucket) :
    bumpBucket p s1 d1 v1 (bumpBucket p s2 d2 v2 b) =
      bumpBucket p s2 d2 v2 (bumpBucket p s1 d1 v1 b) := by
  simp only [bumpBucket, Bucket.mk.injEq]
  exact ⟨by omega, xor_right_comm _ _ _, xor_right_comm _ _ _, xor_right_comm _ _ _⟩

theorem bumpBucket_cancel (p : IbltParams) (s : Int) (d v : Nat) (b : Bucket) :
    bumpBucket p (-s) d v (bumpBucket p s d v b) = b := by
  simp only [bumpBucket]
  rw [xor_cancel_right, xor_cancel_right, xor_cancel_right]
  have : b.count + s + -s = b.count := by omega
  rw [this]

theorem modifyIdx_comm (f g : Bucket → Bucket) (hfg : ∀ b, f (g b) = g (f b)) :
    ∀ (i j : Nat) (l : List Bucket),
      modifyIdx f i (modifyIdx g j l) = modifyIdx g j (modifyIdx f i l) := by
  intro i j l
  induction l generalizing i j with
  | nil => cases i <;> cases j <;> rfl
  | cons b r ih =>
    match i, j with
    | 0, 0 => simp only [modifyIdx, hfg b]
    | 0, j+1 => rfl
    | i+1, 0 => rfl
    | i+1, j+1 => simp only [modifyIdx, ih i j]

theorem modifyIdx_cancel (f g : Bucket → Bucket) (hfg : ∀ b, g (f b) = b) :
    ∀ (i : Nat) (l : List Bucket), modifyIdx g i (modifyIdx f i l) = l := by
  intro i l
  induction l generalizing i with
  | nil => cases i <;> rfl
  | cons b r ih =>
    match i with
    | 0 => simp only [modifyIdx, hfg b]
    | i+1 => simp only [modifyIdx, ih i]

theorem modifyIdx_foldl_comm (p : IbltParams) (s1 s2 : Int) (d1 v1 d2 v2 : Nat) (i : Nat) :
    ∀ (ks : List Nat) (l : List Bucket),
      modifyIdx (bumpBucket p s1 d1 v1) i
          (ks.foldl (fun bs k => modifyIdx (bumpBucket p s2 d2 v2) (bucketIdx p d2 k) bs) l) =
        ks.foldl (fun bs k => modifyIdx (bumpBucket p s2 d2 v2) (bucketIdx p d2 k) bs)
          (modifyIdx (bumpBucket p s1 d1 v1) i l) := by
  intro ks
  induction ks with
  | nil => intro l; rfl
  | cons k kt ih =>
    intro l
    simp only [List.foldl_cons]
    rw [ih, modifyIdx_comm _ _ (fun b => bumpBucket_comm p s1 s2 d1 v1 d2 v2 b)]

theorem op_foldl_cancel (p : IbltParams) (s : Int) (d v : Nat) :
    ∀ (ks : List Nat) (l : List Bucket),
      ks.foldl (fun bs k => modifyIdx (bumpBucket p (-s) d v) (bucketIdx p d k) bs)
          (ks.foldl (fun bs k => modifyIdx (bumpBucket p s d v) (bucketIdx p d k) bs) l) =
        l := by
  intro ks
  induction ks with
  | nil => intro l; rfl
  | cons k kt ih =>
    intro l
    simp only [List.foldl_cons]
    rw [modifyIdx_foldl_comm p (-s) s d v d v (bucketIdx p d k) kt,
      modifyIdx_cancel _ _ (fun b => bumpBucket_cancel p s d v b), ih]

/-- C2: for every Iblt state, digest `d` and value `v`, `insert(d, v)`
followed by `erase(d, v)` restores every touched bucket to its prior exact
state bit-for-bit, leaving the whole Iblt equal to its original state. -/
theorem claim_C2_insert_erase_roundtrip (p : IbltParams) (t : Iblt) (d v : Nat) :
    Iblt.erase p (Iblt.insert p t d v) d v = t := by
  simp only [Iblt.erase, Iblt.insert, Iblt.op]
  rw [op_foldl_cancel p 1 d v (List.range p.K) t.buckets]

theorem xor_sub_cancel (x y c : Nat) : (x ^^^ c) ^^^ (y ^^^ c) = x ^^^ y := by
  rw [Nat.xor_assoc, ← Nat.xor_assoc c y c, Nat.xor_comm c y, xor_cancel_right]

theorem sub_bumpBucket (p : IbltParams) (s : Int) (d v : Nat) (a b : Bucket) :
    Bucket.sub (bumpBucket p s d v a) (bumpBucket p s d v b) = Bucket.sub a b := by
  simp only [bumpBucket, Bucket.sub, Bucket.mk.injEq]
  exact ⟨by omega, xor_sub_cancel _ _ _, xor_sub_cancel _ _ _, xor_sub_cancel _ _ _⟩

theorem zipWith_sub_modify (p : IbltParams) (s : Int) (d v : Nat) :
    ∀ (i : Nat) (xs ys : List Bucket),
      List.zipWith Bucket.sub (modifyIdx (bumpBucket p s d v) i xs)
          (modifyIdx (bumpBucket p s d v) i ys) = List.zipWith Bucket.sub xs ys := by
  intro i xs
  induction xs generalizing i with
  | nil => intro ys; cases i <;> rfl
  | cons x xr ih =>
    intro ys
    cases ys with
    | nil => cases i <;> rfl
    | cons y yr =>
      cases i with
      | zero => simp only [modifyIdx, List.zipWith_cons_cons, sub_bumpBucket]
      | succ j => simp only [modifyIdx, List.zipWith_cons_cons, ih j]

theorem zipWith_sub_foldl (p : IbltParams) (s : Int) (d v : Nat) :
    ∀ (ks : List Nat) (xs ys : List Bucket),
      List.zipWith Bucket.sub
          (ks.foldl (fun bs k => modifyIdx (bumpBucket p s d v) (bucketIdx p d k) bs) xs)
          (ks.foldl (fun bs k => modifyIdx (bumpBucket p s d v) (bucketIdx p d k) bs) ys) =
        List.zipWith Bucket.sub xs ys := by
  intro ks
  induction ks with
  | nil => intro xs ys; rfl
  | cons k kt ih =>
    intro xs ys
    simp only [List.foldl_cons]
    rw [ih, zipWith_sub_modify]

theorem subtract_insert (p : IbltParams) (x y : Iblt) (d v : Nat) :
    Iblt.subtract (Iblt.insert p x d v) (Iblt.insert p y d v) = Iblt.subtract x y := by
  simp only [Iblt.insert, Iblt.op, Iblt.subtract]
  rw [zipWith_sub_foldl]

theorem subtract_foldl_insert (p : IbltParams) :
    ∀ (c : List Nat) (x y : Iblt),
      Iblt.subtract (c.foldl (fun t d => Iblt.insert p t d d) x)
          (c.foldl (fun t d => Iblt.insert p t d d) y) = Iblt.subtract x y := by
  intro c
  induction c with
  | nil => intro x y; rfl
  | cons e ct ih =>
    intro x y
    simp only [List.foldl_cons]
    rw [ih, subtract_insert]

/-- C3 (amended): when both Iblts are built with identical parameters, the
subtracted Iblt encodes exactly the symmetric difference of the two
originating inventories — every digest common to both cancels bucket-wise,
so the subtraction equals that of the Iblts built from the exclusive parts
alone.  (Success of `decode` below the sizing threshold is not guaranteed;
see the counterexample.) -/
theorem claim_C3_subtract_encodes_symmdiff (p : IbltParams)
    (onlyA onlyB common : List Nat) :
    Iblt.subtract (buildIblt p (onlyA ++ common)) (buildIblt p (onlyB ++ common)) =
      Iblt.subtract (buildIblt p onlyA) (buildIblt p onlyB) := by
  simp only [buildIblt, List.foldl_append]
  rw [subtract_foldl_insert]

/-- Concrete Iblt parameters with seed 0 and identity checksums, used by
the concrete counterexamples and witnesses. -/
def demoParams (M K : Nat) : IbltParams := ⟨M, K, 0, fun d => d, fun d => d⟩

/-- C3 counterexample: with M = 6, K = 3 and a fixed seed, the inventories
A = {1, 7} and B = {} have a symmetric difference of size 2, below the
sizing threshold 4, and both Iblts are built with identical M, K and seed —
yet decode of the subtracted Iblt fails with `Undecodable` instead of
yielding the difference: digests 1 and 7 derive identical bucket indices
(any index family on an unbounded digest space has such collisions), so no
pure bucket ever exists. -/
theorem claim_C3_counterexample :
    Iblt.decode (demoParams 6 3)
        (Iblt.subtract (buildIblt (demoParams 6 3) [1, 7])
          (buildIblt (demoParams 6 3) [])) =
      Except.error IbltError.Undecodable ∧
    2 < sizingThreshold (demoParams 6 3) := ⟨rfl, by decide⟩

/-- C4 (amended): whenever no pure bucket remains while some bucket still
has a nonzero count, decode returns `Undecodable`.  (That decode can never
return an incorrect digest list is refuted by the counterexample: a
checksum collision can make a garbage bucket look pure.) -/
theorem claim_C4_no_pure_undecodable (p : IbltParams) (t : Iblt)
    (hnz : t.allZeroCount = false)
    (hnp : t.buckets.find? (fun b => Bucket.isPure p b) = none) :
    Iblt.decode p t = Except.error IbltError.Undecodable := by
  unfold Iblt.decode
  cases h : t.totalAbs with
  | zero => simp [Iblt.decodeAux, hnz]
  | succ n => simp [Iblt.decodeAux, hnz, hnp]

/-- C4 witness: a one-bucket Iblt with count 2 has no pure bucket and a
nonzero count, and decode indeed returns `Undecodable` on it. -/
theorem claim_C4_no_pure_undecodable_witness :
    Iblt.decode (demoParams 1 1) ⟨[⟨2, 5, 5, 5⟩]⟩ =
      Except.error IbltError.Undecodable :=
  claim_C4_no_pure_undecodable (demoParams 1 1) ⟨[⟨2, 5, 5, 5⟩]⟩ (by decide) (by decide)

/-- C4 counterexample: with M = 4, K = 1 and identity (xor-linear) key
checksums, the inventories A = {1, 5} and B = {9} all collide into one
bucket; the Iblt is sized below the true difference count 3 (its sizing
threshold is 2), yet decode silently returns the single garbage digest
13 = 1 xor 5 xor 9 with sign +1 — a digest list that differs from the true
symmetric difference — rather than `Undecodable`. -/
theorem claim_C4_counterexample :
    Iblt.decode (demoParams 4 1)
        (Iblt.subtract (buildIblt (demoParams 4 1) [1, 5])
          (buildIblt (demoParams 4 1) [9])) =
      Except.ok [(13, 1)] ∧
    (13 : Nat) ∉ [1, 5, 9] ∧ sizingThreshold (demoParams 4 1) < 3 :=
  ⟨rfl, by decide, by decide⟩

/-- C6: whenever `diff` succeeds, both returned digest lists (`onlyLocal`,
`onlyRemote`) are sorted in ascending order, so the output is deterministic
for a given pair of inputs. -/
theorem claim_C6_diff_sorted (p : IbltParams) (a b : Iblt)
    (res : List Nat × List Nat) (h : diff p a b = Except.ok res) :
    List.Sorted (· ≤ ·) res.1 ∧ List.Sorted (· ≤ ·) res.2 := by
  unfold diff at h
  cases hd : Iblt.decode p (Iblt.subtract a b) with
  | error e => rw [hd] at h; cases h
  | ok items =>
    rw [hd] at h
    simp only [Except.ok.injEq] at h
    rw [← h]
    exact ⟨List.sorted_insertionSort _ _, List.sorted_insertionSort _ _⟩

/-- C6 witness: the spec's scenario A = {1, 3, 4}, B = {3, 4, 2} with
M = 7, K = 3 decodes, and the two returned lists are sorted. -/
theorem claim_C6_diff_sorted_witness :
    List.Sorted (· ≤ ·) (([1], [2]) : List Nat × List Nat).1 ∧
    List.Sorted (· ≤ ·) (([1], [2]) : List Nat × List Nat).2 :=
  claim_C6_diff_sorted (demoParams 7 3) (buildIblt (demoParams 7 3) [1, 3, 4])
    (buildIblt (demoParams 7 3) [3, 4, 2]) ([1], [2]) rfl

/-- Modelled from the spec: an advertisement — digest, opaque payload
bytes, weight derived from the linked transaction proof, and expiry height
(`src/ad.rs` is declared in `src/lib.rs` but missing from the snapshot). -/
structure Ad where
  digest : Nat
  payload : List Nat
  weight : Nat
  expiry : Nat
deriving DecidableEq

/-- Modelled from the spec: `AdRegistry` — the authoritative local view of
known advertisements, with a capacity bound for eviction. -/
structure AdRegistry where
  ads : List Ad
  capacity : Nat
deriving DecidableEq

/-- Whether the registry already holds an advertisement with this digest. -/
def AdRegistry.containsDigest (r : AdRegistry) (d : Nat) : Bool :=
  r.ads.any fun a => a.digest == d

/-- The minimal weight present in a list of ads (0 for the empty list). -/
def minWeight : List Ad → Nat
  | [] => 0
  | [a] => a.weight
  | a :: b :: rest => min a.weight (minWeight (b :: rest))

/-- Modelled from the spec: capacity eviction removes a currently
lowest-weight advertisement (the first one of minimal weight). -/
def removeLowest (l : List Ad) : List Ad :=
  l.eraseP fun a => a.weight == minWeight l

/-- Modelled from the spec: `add(ad)` — idempotent: re-adding an
already-present digest is a no-op; when at capacity, the lowest-weight
advertisement is evicted first; never an error. -/
def AdRegistry.add (r : AdRegistry) (ad : Ad) : AdRegistry :=
  if r.containsDigest ad.digest then r
  else if r.ads.length < r.capacity then ⟨ad :: r.ads, r.capacity⟩
  else ⟨ad :: removeLowest r.ads, r.capacity⟩

/-- C5: `AdRegistry.add` is idempotent — for every registry state, adding
an ad whose digest is already present leaves the registry unchanged, and
adding the same ad twice equals adding it once; a duplicate digest is
benign, never an error (`add` is total and returns a registry). -/
theorem claim_C5_add_idempotent (r : AdRegistry) (ad : Ad) :
    (r.containsDigest ad.digest = true → r.add ad = r) ∧
    (r.add ad).add ad = r.add ad := by
  constructor
  · intro h
    unfold AdRegistry.add
    rw [if_pos h]
  · by_cases h : r.containsDigest ad.digest
    · unfold AdRegistry.add
      rw [if_pos h, if_pos h]
    · unfold AdRegistry.add
      rw [if_neg h]
      by_cases hc : r.ads.length < r.capacity
      · rw [if_pos hc]
        have hin : AdRegistry.containsDigest ⟨ad :: r.ads, r.capacity⟩ ad.digest = true := by
          simp [AdRegistry.containsDigest]
        rw [if_pos hin]
      · rw [if_neg hc]
        have hin : AdRegistry.containsDigest ⟨ad :: removeLowest r.ads, r.capacity⟩
            ad.digest = true := by
          simp [AdRegistry.containsDigest]
        rw [if_pos hin]

/-- C5 witness: a concrete registry holding the digest being re-added. -/
theorem claim_C5_add_idempotent_witness :
    (AdRegistry.mk [⟨1, [], 5, 0⟩] 10).add ⟨1, [], 5, 0⟩ =
      AdRegistry.mk [⟨1, [], 5, 0⟩] 10 ∧
    ((AdRegistry.mk [⟨2, [], 5, 0⟩] 10).add ⟨3, [], 7, 0⟩).add ⟨3, [], 7, 0⟩ =
      (AdRegistry.mk [⟨2, [], 5, 0⟩] 10).add ⟨3, [], 7, 0⟩ :=
  ⟨(claim_C5_add_idempotent (AdRegistry.mk [⟨1, [], 5, 0⟩] 10) ⟨1, [], 5, 0⟩).1 (by decide),
    (claim_C5_add_idempotent (AdRegistry.mk [⟨2, [], 5, 0⟩] 10) ⟨3, [], 7, 0⟩).2⟩

theorem minWeight_le (l : List Ad) : ∀ a ∈ l, minWeight l ≤ a.weight := by
  induction l with
  | nil => intro a ha; cases ha
  | cons x rest ih =>
    intro a ha
    cases rest with
    | nil =>
      have hax : a = x := by simpa using ha
      rw [hax]
      exact Nat.le_refl _
    | cons y r =>
      simp only [minWeight]
      rcases List.mem_cons.mp ha with h | h
      · rw [h]
        exact Nat.min_le_left _ _
      · exact Nat.le_trans (Nat.min_le_right _ _) (ih a h)

theorem exists_minWeight (l : List Ad) (h : l ≠ []) : ∃ a ∈ l, a.weight = minWeight l := by
  induction l with
  | nil => exact absurd rfl h
  | cons x rest ih =>
    cases rest with
    | nil => exact ⟨x, List.mem_cons_self _ _, rfl⟩
    | cons y r =>
      obtain ⟨a, ha, haw⟩ := ih (by simp)
      by_cases hxa : x.weight ≤ minWeight (y :: r)
      · exact ⟨x, List.mem_cons_self _ _, (Nat.min_eq_left hxa).symm⟩
      · refine ⟨a, List.mem_cons_of_mem x ha, ?_⟩
        rw [haw, minWeight, Nat.min_eq_right (Nat.le_of_not_le hxa)]

/-- C8: adding a new advertisement to a registry at capacity evicts a
currently lowest-weight advertisement first — the evicted element has
minimal weight among all stored advertisements, so no higher-weight
advertisement is removed before it. -/
theorem claim_C8_evict_lowest_weight (r : AdRegistry) (ad : Ad)
    (hfull : r.ads.length = r.capacity) (hpos : 0 < r.capacity)
    (hnew : r.containsDigest ad.digest = false) :
    ∃ e l₁ l₂, r.ads = l₁ ++ e :: l₂ ∧
      e.weight = minWeight r.ads ∧
      (∀ a ∈ r.ads, e.weight ≤ a.weight) ∧
      (r.add ad).ads = ad :: (l₁ ++ l₂) := by
  have hne : r.ads ≠ [] := by
    intro he
    rw [he] at hfull
    simp at hfull
    omega
  obtain ⟨e, he, hew⟩ := exists_minWeight r.ads hne
  have hp : (e.weight == minWeight r.ads) = true := by simp [hew]
  obtain ⟨e', l₁, l₂, hnl, hpe, hsplit, herase⟩ :=
    List.exists_of_eraseP (p := fun a => a.weight == minWeight r.ads) he hp
  have hew' : e'.weight = minWeight r.ads := by simpa using hpe
  refine ⟨e', l₁, l₂, hsplit, hew', fun a ha => hew' ▸ minWeight_le r.ads a ha, ?_⟩
  unfold AdRegistry.add
  rw [if_neg (by simp [hnew]), if_neg (by omega)]
  rw [removeLowest, herase]

/-- C8 witness: a registry at capacity 2 holding weights 5 and 3 evicts the
weight-3 advertisement when a new weight-9 one arrives. -/
theorem claim_C8_evict_lowest_weight_witness :
    ∃ e l₁ l₂,
      (AdRegistry.mk [⟨1, [], 5, 0⟩, ⟨2, [], 3, 0⟩] 2).ads = l₁ ++ e :: l₂ ∧
      e.weight = minWeight (AdRegistry.mk [⟨1, [], 5, 0⟩, ⟨2, [], 3, 0⟩] 2).ads ∧
      (∀ a ∈ (AdRegistry.mk [⟨1, [], 5, 0⟩, ⟨2, [], 3, 0⟩] 2).ads, e.weight ≤ a.weight) ∧
      ((AdRegistry.mk [⟨1, [], 5, 0⟩, ⟨2, [], 3, 0⟩] 2).add ⟨3, [], 9, 0⟩).ads =
        (⟨3, [], 9, 0⟩ : Ad) :: (l₁ ++ l₂) :=
  claim_C8_evict_lowest_weight (AdRegistry.mk [⟨1, [], 5, 0⟩, ⟨2, [], 3, 0⟩] 2)
    ⟨3, [], 9, 0⟩ (by decide) (by decide) (by decide)

/-- Modelled from the spec: the phases of a per-peer `SyncSession`
(`src/p2p_defiads.rs` is declared in `src/lib.rs` but missing from the
snapshot); `Failed` is terminal and reachable from any state. -/
inductive Phase
  | Idle
  | FilterSent
  | FilterReceived
  | DiffComputed
  | Requesting
  | Fulfilling
  | Settled
  | Failed
deriving DecidableEq

/-- Modelled from the spec: per-peer session state — the current phase, the
current phase's explicit deadline, the instant until which a failed
session cools down, and its retry counter. -/
structure SyncSession where
  phase : Phase
  deadline : Nat
  cooldownUntil : Nat
  retries : Nat
deriving DecidableEq

/-- Modelled from the spec: the deadline check applied at time `now` —
every phase carries an explicit deadline, and exceeding it moves the
session to `Failed` (with a cool-down of `cooldown`) rather than letting
it hang in the phase indefinitely. -/
def SyncSession.tick (cooldown now : Nat) (s : SyncSession) : SyncSession :=
  if s.phase ≠ Phase.Failed ∧ s.deadline < now then
    ⟨Phase.Failed, s.deadline, now + cooldown, s.retries⟩
  else s

/-- Modelled from the spec: a `Failed` session becomes eligible to be
retried by the scheduler once its cool-down interval has passed. -/
def SyncSession.retryable (now : Nat) (s : SyncSession) : Bool :=
  s.phase == Phase.Failed && decide (s.cooldownUntil ≤ now)

/-- C7: in every session state whose phase is not already terminal
`Failed`, once the phase's deadline has elapsed the tick transitions the
session to `Failed` (it never remains in the phase), and at every instant
from the end of its cool-down interval on, the failed session is eligible
to be retried by the scheduler. -/
theorem claim_C7_deadline_to_failed_then_retryable (cooldown now : Nat)
    (s : SyncSession) (hactive : s.phase ≠ Phase.Failed) (hexp : s.deadline < now) :
    (SyncSession.tick cooldown now s).phase = Phase.Failed ∧
    ∀ t, now + cooldown ≤ t → SyncSession.retryable t (SyncSession.tick cooldown now s) = true := by
  unfold SyncSession.tick
  rw [if_pos ⟨hactive, hexp⟩]
  refine ⟨rfl, fun t ht => ?_⟩
  simp only [SyncSession.retryable, Bool.and_eq_true, beq_iff_eq, decide_eq_true_eq]
  exact ⟨by trivial, ht⟩

/-- C7 witness: a session in `FilterSent` with deadline 10 ticked at time
11 fails, and is retryable at time 16 after its cool-down of 5. -/
theorem claim_C7_deadline_to_failed_then_retryable_witness :
    (SyncSession.tick 5 11 ⟨Phase.FilterSent, 10, 0, 0⟩).phase = Phase.Failed ∧
    SyncSession.retryable 16 (SyncSession.tick 5 11 ⟨Phase.FilterSent, 10, 0, 0⟩) = true :=
  ⟨(claim_C7_deadline_to_failed_then_retryable 5 11 ⟨Phase.FilterSent, 10, 0, 0⟩
      (by decide) (by decide)).1,
    (claim_C7_deadline_to_failed_then_retryable 5 11 ⟨Phase.FilterSent, 10, 0, 0⟩
      (by decide) (by decide)).2 16 (by decide)⟩

end Defiads
